import Mathlib

/-
Verification of the canvass-parsing program (canvass.py).

The program parses a plain-text election canvass report and converts one
selected contest into a table.  This file contains a shallow embedding of
the program: strings are modelled as `List Char`, Python exceptions and
the one possible infinite loop are modelled by the `Err` outcome type,
and every bounded while-loop of the source is modelled by a structurally
recursive function whose fuel argument mirrors the loop counter bound
(the fuel-exhausted branches reproduce exactly what the Python loop does
at its counter ceiling).

Conventions:
  * Python `str` is `List Char`; inputs are ASCII, so `\d` is `Char.isDigit`,
    `\s` is the six ASCII whitespace characters, and `upper`/`lower` are
    `Char.toUpper`/`Char.toLower`.
  * Python `None` inside result rows is the cell `Cell.pynone`.
  * A raised exception is `Except.error e`; an infinite loop is the
    outcome `Except.error Err.nonterm`.
-/

/-- Outcome type: the Python exceptions the program can raise, plus
`nonterm` marking an infinite loop. -/
inductive Err where
  | indexError
  | valueError
  | keyError
  | assertError
  | typeError
  | nonterm
  deriving DecidableEq, Repr

/-- One cell of a result row: a string, an int, or Python `None`. -/
inductive Cell where
  | str : List Char → Cell
  | int : Int → Cell
  | pynone : Cell
  deriving DecidableEq, Repr

/-- A table row, exactly as the Python code builds it:
`[primary_id, secondary_id, precinct_descrip] + precinct_votes`. -/
abbrev Row := List Cell

/-- ASCII model of the regex class `\s` (also used for `str.strip`). -/
def isPyWs (c : Char) : Bool :=
  (c == ' ') || (c == '\t') || (c == '\n') || (c == '\r') || (c == '\x0b') || (c == '\x0c')

/-- Model of the regex class `[a-zA-z]` (note the source's typo: the
second range is `A`-`z`, so the class is every character from `A` to `z`). -/
def isAzClass (c : Char) : Bool :=
  ('A' ≤ c) && (c ≤ 'z')

/-- Model of the regex class `[a-zA-z/\s().'\-]` used for candidate names. -/
def isCandClass (c : Char) : Bool :=
  isAzClass c || (c == '/') || (c == '(') || (c == ')') || (c == '.') ||
    (c == '\'') || (c == '-') || isPyWs c

/-- Prepend a character to the first fragment of a fragment list. -/
def consHead (c : Char) : List (List Char) → List (List Char)
  | [] => [[c]]
  | s :: ss => (c :: s) :: ss

/-- Split on a single character (every occurrence is a boundary);
always returns one more fragment than there are separators. -/
def splitChar (sep : Char) : List Char → List (List Char)
  | [] => [[]]
  | c :: rest => if c == sep then [] :: splitChar sep rest else consHead c (splitChar sep rest)

/-- Model of Python `str.splitlines` for `\n`-separated ASCII text:
split on `'\n'` and drop a final empty fragment. -/
def splitlines (cs : List Char) : List (List Char) :=
  let parts := splitChar '\n' cs
  if parts.getLast? = some [] then parts.dropLast else parts

/-- Model of Python `str.lstrip()`. -/
def lstrip (cs : List Char) : List Char := cs.dropWhile isPyWs

/-- Model of Python `str.rstrip()`. -/
def rstrip (cs : List Char) : List Char := (cs.reverse.dropWhile isPyWs).reverse

/-- Model of Python `str.lstrip().rstrip()` (full strip). -/
def stripBoth (cs : List Char) : List Char := rstrip (lstrip cs)

/-- One step list of `re.split(pat, s)` for a pattern matching runs of two
or more characters satisfying `p` (used for `={2,}` and `\s{2,}`): the
regex engine consumes each maximal run greedily, left to right.  `fuel`
bounds the recursion; every recursive call consumes at least one
character, so `fuel = cs.length` makes the fuel-out branch unreachable. -/
def splitRun2Go (p : Char → Bool) : Nat → List Char → List (List Char)
  | _, [] => [[]]
  | 0, l => [l]
  | _ + 1, [a] => [[a]]
  | fuel + 1, a :: b :: rest =>
    if p a && p b then [] :: splitRun2Go p fuel (rest.dropWhile p)
    else consHead a (splitRun2Go p fuel (b :: rest))

/-- Model of `re.split` on runs of two or more characters satisfying `p`. -/
def splitRun2 (p : Char → Bool) (cs : List Char) : List (List Char) :=
  splitRun2Go p cs.length cs

/-- Number of separator runs the `splitRun2Go` scan finds (same recursion). -/
def countRun2Go (p : Char → Bool) : Nat → List Char → Nat
  | _, [] => 0
  | 0, _ => 0
  | _ + 1, [_] => 0
  | fuel + 1, a :: b :: rest =>
    if p a && p b then 1 + countRun2Go p fuel (rest.dropWhile p)
    else countRun2Go p fuel (b :: rest)

/-- Model of `re.split(r"={2,}", text)`. -/
def pySplitEq (cs : List Char) : List (List Char) :=
  splitRun2 (fun c => c == '=') cs

/-- Number of `={2,}` separator runs in the text. -/
def countEqRuns (cs : List Char) : Nat :=
  countRun2Go (fun c => c == '=') cs.length cs

/-- Model of `re.split(r"\s{2,}", line)`. -/
def splitWs2 (cs : List Char) : List (List Char) :=
  splitRun2 isPyWs cs

/-- Model of `read_canvass_from_text` (canvass.py lines 45-50), with the
file's text passed directly: split the canvass on `={2,}` and drop a
final empty fragment. -/
def read_canvass_from_text (cs : List Char) : List (List Char) :=
  let contests := pySplitEq cs
  if contests.getLast? = some [] then contests.dropLast else contests

/-- Model of Python substring containment `pat in s`. -/
def infixOf (pat : List Char) : List Char → Bool
  | [] => pat.isEmpty
  | c :: rest => pat.isPrefixOf (c :: rest) || infixOf pat rest

/-- Test `"VOTES" in line.upper()`. -/
def hasVotes (l : List Char) : Bool :=
  infixOf ("VOTES".toList) (l.map Char.toUpper)

/-- Test `"vote for not more" in line.lower()`. -/
def hasVoteForNotMore (l : List Char) : Bool :=
  infixOf ("vote for not more".toList) (l.map Char.toLower)

/-- The while-loop of `grab_contest_title` (canvass.py lines 67-78).
`fuel` is `10000 - k`, matching the loop guard `k < 10000`: when the fuel
is exhausted the loop exits and the function returns `None`.  A line
access past the end of the block raises `IndexError`, exactly as
`contest[k]` does. -/
def titleGo (lines : List (List Char)) : Nat → Nat → Except Err (Option (List Char))
  | 0, _ => .ok none
  | fuel + 1, k =>
    if k < lines.length then
      if hasVotes (lines.getD k []) then
        if k + 1 < lines.length then
          if k + 2 < lines.length then
            if hasVoteForNotMore (lines.getD (k + 2) []) then
              .ok (some (rstrip (lines.getD (k + 1) [])))
            else
              .ok (some (rstrip (lines.getD (k + 1) []) ++ ' ' :: stripBoth (lines.getD (k + 2) [])))
          else .error .indexError
        else .error .indexError
      else titleGo lines fuel (k + 1)
    else .error .indexError

/-- Model of `grab_contest_title` (canvass.py lines 52-79). -/
def grab_contest_title (contest : List Char) : Except Err (Option (List Char)) :=
  titleGo (splitlines contest) 10000 0

/-- The tail `\d{0,4}\s?[a-zA-z]+` of the precinct-row regex, after the
optional digits: an optional single whitespace followed by a class
character. -/
def optWsAlpha : List Char → Bool
  | [] => false
  | c :: rest =>
    if isAzClass c then true
    else if isPyWs c then
      match rest with
      | c2 :: _ => isAzClass c2
      | [] => false
    else false

/-- Backtracking of `\d{0,4}` in the precinct-row regex: try matching the
rest here, or consume one more digit (up to `j` more). -/
def digitsThenRest : List Char → Nat → Bool
  | rest, 0 => optWsAlpha rest
  | rest, j + 1 =>
    optWsAlpha rest ||
      (match rest with
       | c :: cs => c.isDigit && digitsThenRest cs j
       | [] => false)

/-- Whether `re.findall(r"^\d{4}\s\d{0,4}\s?[a-zA-z]+", line)` is
non-empty, i.e. the anchored precinct-row pattern matches the line. -/
def precinctMatch (l : List Char) : Bool :=
  match l with
  | d1 :: d2 :: d3 :: d4 :: w :: rest =>
    d1.isDigit && d2.isDigit && d3.isDigit && d4.isDigit && isPyWs w && digitsThenRest rest 4
  | _ => false

/-- The while-loop of `verify_precincts` (canvass.py lines 113-122).
`fuel` is `10000 - k`.  The source's `else` branch (reached at
`k = 10000` with a non-matching in-range line) assigns
`contest_cleaned = []` but never sets the loop flag, so the loop runs
forever: modelled as the outcome `Err.nonterm`. -/
def vpGo (lines : List (List Char)) : Nat → Nat → Except Err (List (List Char))
  | 0, k =>
    match lines.get? k with
    | none => .error .indexError
    | some l => if precinctMatch l then .ok (lines.drop k) else .error .nonterm
  | fuel + 1, k =>
    match lines.get? k with
    | none => .error .indexError
    | some l => if precinctMatch l then .ok (lines.drop k) else vpGo lines fuel (k + 1)

/-- Model of `verify_precincts` (canvass.py lines 101-122). -/
def verify_precincts (contest : List Char) : Except Err (List (List Char)) :=
  vpGo (splitlines contest) 10000 0

/-- Model of `re.split(r"\d{4}\s", field)`: each (fixed-length-5) match of
four digits followed by one whitespace is a boundary. -/
def splitD4WGo : Nat → List Char → List (List Char)
  | _, [] => [[]]
  | 0, l => [l]
  | fuel + 1, c :: rest =>
    match c :: rest with
    | d1 :: d2 :: d3 :: d4 :: w :: rest5 =>
      if d1.isDigit && d2.isDigit && d3.isDigit && d4.isDigit && isPyWs w then
        [] :: splitD4WGo fuel rest5
      else consHead c (splitD4WGo fuel rest)
    | _ => consHead c (splitD4WGo fuel rest)

/-- Model of `re.split(r"\d{4}\s", field)` with adequate fuel. -/
def splitD4W (cs : List Char) : List (List Char) :=
  splitD4WGo cs.length cs

/-- Model of `re.findall(r"\d{4}", field)`: non-overlapping four-digit
runs, left to right. -/
def findD4Go : Nat → List Char → List (List Char)
  | _, [] => []
  | 0, _ => []
  | fuel + 1, c :: rest =>
    match c :: rest with
    | d1 :: d2 :: d3 :: d4 :: rest4 =>
      if d1.isDigit && d2.isDigit && d3.isDigit && d4.isDigit then
        [d1, d2, d3, d4] :: findD4Go fuel rest4
      else findD4Go fuel rest
    | _ => findD4Go fuel rest

/-- Model of `re.findall(r"\d{4}", field)` with adequate fuel. -/
def findD4 (cs : List Char) : List (List Char) :=
  findD4Go cs.length cs

/-- Digit-string accumulator for `pyInt`. -/
def digitsValGo : List Char → Nat → Option Nat
  | [], acc => some acc
  | c :: cs, acc => if c.isDigit then digitsValGo cs (acc * 10 + (c.toNat - 48)) else none

/-- Model of Python `int(s)` on ASCII input: optional surrounding
whitespace, optional sign, then one or more digits; anything else raises
`ValueError` (modelled as `none`). -/
def pyInt (cs : List Char) : Option Int :=
  match stripBoth cs with
  | [] => none
  | '+' :: ds =>
    match ds with
    | [] => none
    | _ => (digitsValGo ds 0).map (fun n => (n : Int))
  | '-' :: ds =>
    match ds with
    | [] => none
    | _ => (digitsValGo ds 0).map (fun n => -(n : Int))
  | ds => (digitsValGo ds 0).map (fun n => (n : Int))

/-- Sequential effectful map: stops at the first `Except.error`, exactly
like a Python `for` loop whose body may raise. -/
def mapExcept {α β : Type} (f : α → Except Err β) : List α → Except Err (List β)
  | [] => .ok []
  | a :: as =>
    match f a with
    | .error e => .error e
    | .ok b =>
      match mapExcept f as with
      | .error e => .error e
      | .ok bs => .ok (b :: bs)

/-- Conversion of one vote field by `int(vote)` (canvass.py line 142);
a parse failure is Python's `ValueError`. -/
def voteInt (v : List Char) : Except Err Int :=
  match pyInt v with
  | some n => .ok n
  | none => .error .valueError

/-- Body of the `for precinct in contest_cleaned` loop of
`grab_precincts` (canvass.py lines 134-152): split the line on `\s{2,}`,
take the non-digit remainder of the first field as the precinct name,
parse every remaining field with `int`, and collect the four-digit
identifiers of the first field. -/
def parseRow (line : List Char) : Except Err Row :=
  let fields := splitWs2 line
  let f0 := fields.headD []
  let descrip := (splitD4W f0).getLastD []
  match mapExcept voteInt (fields.drop 1) with
  | .error e => .error e
  | .ok votes =>
    let ids := findD4 f0
    let pcell : Cell := match ids.get? 0 with
      | some i => .str i
      | none => .pynone
    let scell : Cell := match ids.get? 1 with
      | some i => .str i
      | none => .pynone
    .ok ([pcell, scell, .str descrip] ++ votes.map Cell.int)

/-- Model of `grab_precincts` (canvass.py lines 124-153). -/
def grab_precincts (contest : List Char) : Except Err (List Row) :=
  match verify_precincts contest with
  | .error e => .error e
  | .ok region => mapExcept parseRow region

/-- One attempt of the candidate regex
`\d{2}\s=\s[a-zA-z/\s().'\-]+` at the head of the text: two digits, one
whitespace, `=`, one whitespace, then a maximal non-empty run of class
characters.  Returns the matched text and the remainder. -/
def tryCand (l : List Char) : Option (List Char × List Char) :=
  match l with
  | d1 :: d2 :: w :: e :: w2 :: rest =>
    if d1.isDigit && d2.isDigit && isPyWs w && (e == '=') && isPyWs w2 then
      match rest.takeWhile isCandClass with
      | [] => none
      | name => some (d1 :: d2 :: w :: e :: w2 :: name, rest.dropWhile isCandClass)
    else none
  | _ => none

/-- Model of `re.findall` for the candidate pattern: leftmost
non-overlapping matches. -/
def findCandsGo : Nat → List Char → List (List Char)
  | _, [] => []
  | 0, _ => []
  | fuel + 1, c :: rest =>
    match tryCand (c :: rest) with
    | some (m, rest') => m :: findCandsGo fuel rest'
    | none => findCandsGo fuel rest

/-- Model of `re.findall(r"(\d{2}\s=\s[a-zA-z/\s().'\-]+)", contest)`. -/
def findCands (cs : List Char) : List (List Char) :=
  findCandsGo cs.length cs

/-- Model of `str.split(" = ")`: split on every occurrence of the
three-character separator, left to right. -/
def splitSepEqGo : Nat → List Char → List (List Char)
  | _, [] => [[]]
  | 0, l => [l]
  | fuel + 1, c :: rest =>
    match c :: rest with
    | ' ' :: '=' :: ' ' :: rest3 => [] :: splitSepEqGo fuel rest3
    | _ => consHead c (splitSepEqGo fuel rest)

/-- Model of `candidate.split(" = ")`. -/
def splitSepEq (cs : List Char) : List (List Char) :=
  splitSepEqGo cs.length cs

/-- The candidate mapping: a Python dict keyed by the candidate index. -/
abbrev CandMap := List (Int × List Char)

/-- Python dict assignment `d[k] = v`: replace in place, else append. -/
def upsert : CandMap → Int → List Char → CandMap
  | [], k, v => [(k, v)]
  | kv :: rest, k, v => if kv.1 = k then (k, v) :: rest else kv :: upsert rest k v

/-- Python dict lookup `d[k]` as an option. -/
def lookupKey : CandMap → Int → Option (List Char)
  | [], _ => none
  | kv :: rest, k => if kv.1 = k then some kv.2 else lookupKey rest k

/-- The `for candidate in candidates_wspace` loop of `grab_candidates`
(canvass.py lines 93-98): right-strip the match, split on `" = "`, parse
the two-digit index, store the name under the index. -/
def candLoop : List (List Char) → CandMap → Except Err CandMap
  | [], m => .ok m
  | c :: cs, m =>
    let parts := splitSepEq (rstrip c)
    match pyInt (parts.headD []) with
    | none => .error .valueError
    | some idx =>
      match parts.get? 1 with
      | none => .error .indexError
      | some name => candLoop cs (upsert m idx name)

/-- Model of `grab_candidates` (canvass.py lines 81-99). -/
def grab_candidates (contest : List Char) : Except Err CandMap :=
  candLoop (findCands contest) []

/-- Decimal digits of a natural number (Python `str(k)` for `k ≥ 0`);
fuel makes the recursion structural and is always sufficient. -/
def natDigitsGo : Nat → Nat → List Char
  | 0, _ => []
  | f + 1, n =>
    if n < 10 then [Char.ofNat (48 + n)]
    else natDigitsGo f (n / 10) ++ [Char.ofNat (48 + n % 10)]

/-- Model of Python `str(k)` for a natural number. -/
def natDigits (n : Nat) : List Char := natDigitsGo (n + 1) n

/-- Key type of the `titles_dict` dict: a title string, or Python `None`
when no "VOTES" marker was found. -/
abbrev TitleKey := Option (List Char)

/-- Python `k in d` for the titles dict. -/
def dictHasKey : List (TitleKey × Nat) → TitleKey → Bool
  | [], _ => false
  | kv :: rest, k => if kv.1 = k then true else dictHasKey rest k

/-- Python `d[k]` for the titles dict, as an option. -/
def dictLookup : List (TitleKey × Nat) → TitleKey → Option Nat
  | [], _ => none
  | kv :: rest, k => if kv.1 = k then some kv.2 else dictLookup rest k

/-- Python dict assignment for the titles dict. -/
def dictSet : List (TitleKey × Nat) → TitleKey → Nat → List (TitleKey × Nat)
  | [], k, v => [(k, v)]
  | kv :: rest, k, v => if kv.1 = k then (k, v) :: rest else kv :: dictSet rest k v

/-- The `for k in range(1, len(contests))` loop of `display_contests`
(canvass.py lines 167-172).  A title already present is re-keyed as
`title + str(k)`; re-keying a `None` title would be a Python
`TypeError`. -/
def dcGo (blocks : List (List Char)) : List Nat → List (TitleKey × Nat) → Except Err (List (TitleKey × Nat))
  | [], d => .ok d
  | k :: ks, d =>
    match grab_contest_title (blocks.getD k []) with
    | .error e => .error e
    | .ok title =>
      if dictHasKey d title then
        match title with
        | some t => dcGo blocks ks (dictSet d (some (t ++ natDigits k)) k)
        | none => .error .typeError
      else dcGo blocks ks (dictSet d title k)

/-- Model of `display_contests` (canvass.py lines 155-173), with the
file's text passed directly. -/
def display_contests (text : List Char) : Except Err (List (TitleKey × Nat)) :=
  let contests := read_canvass_from_text text
  dcGo contests (List.range' 1 (contests.length - 1)) []

/-- Python list indexing `l[i]` with negative-index support. -/
def pyIndex {α : Type} (l : List α) (i : Int) : Option α :=
  if 0 ≤ i then l.get? i.toNat
  else if 0 ≤ (l.length : Int) + i then l.get? ((l.length : Int) + i).toNat
  else none

/-- The header construction of `gen_election_table` (canvass.py lines
196-198): the three identifier columns followed by
`candidates[k]` for `k` from 1 to `len(candidates)`; a missing key is
Python's `KeyError`. -/
def headerLookup (candidates : CandMap) (k : Nat) : Except Err Cell :=
  match lookupKey candidates ((k : Int)) with
  | some n => Except.ok (Cell.str n)
  | none => Except.error Err.keyError

def buildHeader (candidates : CandMap) : Except Err Row :=
  match mapExcept (headerLookup candidates) (List.range' 1 candidates.length) with
  | .error e => .error e
  | .ok names =>
    .ok ([Cell.str ("Primary precinct ID".toList),
          Cell.str ("Secondary precinct ID".toList),
          Cell.str ("Precinct name".toList)] ++ names)

/-- The title header row `[title]`. -/
def titleCell : Option (List Char) → Cell
  | some t => .str t
  | none => .pynone

/-- Model of `gen_election_table` (canvass.py lines 175-213), with the
file's text passed directly.  The result is the list of rows the
function builds: the title row, the header row, then one row per
precinct.  These are exactly the rows written to the CSV file when an
export path is given, and exactly the returned `table` otherwise. -/
def gen_election_table (text : List Char) (contest_number : Int) : Except Err (List Row) :=
  let contests := read_canvass_from_text text
  if contest_number < (contests.length : Int) then
    match pyIndex contests contest_number with
    | none => .error .indexError
    | some contest =>
      match grab_contest_title contest with
      | .error e => .error e
      | .ok title =>
        match grab_candidates contest with
        | .error e => .error e
        | .ok candidates =>
          match grab_precincts contest with
          | .error e => .error e
          | .ok precinct_results =>
            match buildHeader candidates with
            | .error e => .error e
            | .ok header =>
              .ok ([titleCell title] :: header :: precinct_results)
  else .error .assertError

/-! ### General lemmas about the splitting helpers -/

set_option maxRecDepth 400000

theorem length_dropWhile_le (p : Char → Bool) (l : List Char) :
    (l.dropWhile p).length ≤ l.length := by
  induction l with
  | nil => simp
  | cons a as ih =>
    rw [List.dropWhile_cons]
    split
    · exact Nat.le_trans ih (Nat.le_succ _)
    · exact Nat.le_refl _

theorem consHead_ne_nil (c : Char) (l : List (List Char)) : consHead c l ≠ [] := by
  cases l <;> simp [consHead]

theorem consHead_length (c : Char) (l : List (List Char)) (h : l ≠ []) :
    (consHead c l).length = l.length := by
  cases l with
  | nil => exact absurd rfl h
  | cons s ss => simp [consHead]

theorem splitRun2Go_ne_nil (p : Char → Bool) :
    ∀ fuel cs, splitRun2Go p fuel cs ≠ [] := by
  intro fuel
  induction fuel with
  | zero => intro cs; cases cs <;> simp [splitRun2Go]
  | succ f ih =>
    intro cs
    match cs with
    | [] => simp [splitRun2Go]
    | [a] => simp [splitRun2Go]
    | a :: b :: rest =>
      simp only [splitRun2Go]
      split
      · simp
      · exact consHead_ne_nil _ _

theorem splitRun2Go_length (p : Char → Bool) :
    ∀ fuel cs, cs.length ≤ fuel →
      (splitRun2Go p fuel cs).length = countRun2Go p fuel cs + 1 := by
  intro fuel
  induction fuel with
  | zero =>
    intro cs h
    have : cs = [] := List.length_eq_zero.mp (Nat.le_zero.mp h)
    subst this
    simp [splitRun2Go, countRun2Go]
  | succ f ih =>
    intro cs h
    match cs with
    | [] => simp [splitRun2Go, countRun2Go]
    | [a] => simp [splitRun2Go, countRun2Go]
    | a :: b :: rest =>
      simp only [splitRun2Go, countRun2Go]
      have hrest : rest.length + 2 ≤ f + 1 := by simpa using h
      split
      · have hd : (rest.dropWhile p).length ≤ f :=
          Nat.le_trans (length_dropWhile_le p rest) (by omega)
        simp [ih _ hd]
        omega
      · have hb : (b :: rest).length ≤ f := by simp; omega
        rw [consHead_length _ _ (splitRun2Go_ne_nil p f (b :: rest))]
        exact ih _ hb

theorem splitRun2Go_of_no_runs (p : Char → Bool) :
    ∀ fuel cs, cs.length ≤ fuel → countRun2Go p fuel cs = 0 →
      splitRun2Go p fuel cs = [cs] := by
  intro fuel
  induction fuel with
  | zero =>
    intro cs h _
    have : cs = [] := List.length_eq_zero.mp (Nat.le_zero.mp h)
    subst this
    simp [splitRun2Go]
  | succ f ih =>
    intro cs h hc
    match cs with
    | [] => simp [splitRun2Go]
    | [a] => simp [splitRun2Go]
    | a :: b :: rest =>
      simp only [splitRun2Go]
      simp only [countRun2Go] at hc
      have hrest : rest.length + 2 ≤ f + 1 := by simpa using h
      by_cases hp : (p a && p b) = true
      · rw [if_pos hp] at hc
        exact absurd hc (by omega)
      · rw [if_neg hp] at hc ⊢
        have hb : (b :: rest).length ≤ f := by simp; omega
        rw [ih _ hb hc, consHead]

/-! ### Claim C4: segmentation -/

/-- C4 counterexample: on the empty report text, `read_canvass_from_text`
returns the empty sequence, not a single-element sequence containing the
whole text, and its length is not N+1 for the N = 0 separator runs of
the input (the trailing empty fragment is dropped). -/
theorem c4_counterexample :
    read_canvass_from_text [] = [] ∧
      (read_canvass_from_text []).length ≠ countEqRuns [] + 1 := by
  constructor
  · rfl
  · decide

/-- C4 (amended): splitting on runs of two or more `=` characters yields
N+1 fragments for a text with N separator runs; `read_canvass_from_text`
then drops the final fragment when it is empty.  Hence an empty or
boundary-free input yields the single-element sequence containing the
whole text only when the text is non-empty, while the empty text yields
the empty sequence. -/
theorem c4_amended (cs : List Char) :
    (pySplitEq cs).length = countEqRuns cs + 1 ∧
      ((pySplitEq cs).getLast? = some [] →
        read_canvass_from_text cs = (pySplitEq cs).dropLast) ∧
      (countEqRuns cs = 0 → cs ≠ [] → read_canvass_from_text cs = [cs]) := by
  refine ⟨?_, ?_, ?_⟩
  · exact splitRun2Go_length _ _ _ (Nat.le_refl _)
  · intro h
    simp only [read_canvass_from_text, h, if_pos]
  · intro h0 hne
    have hl : pySplitEq cs = [cs] :=
      splitRun2Go_of_no_runs _ _ _ (Nat.le_refl _) h0
    simp [read_canvass_from_text, pySplitEq] at hl ⊢
    simp [hl, hne]

/-- C4 witness: the amended theorem applied to the one-character
boundary-free report "a". -/
theorem c4_amended_witness : read_canvass_from_text (("a").toList) = [("a").toList] :=
  (c4_amended (("a").toList)).2.2 (by decide) (by decide)

/-! ### Claim C1: round-trip on the synthetic report -/

/-- C1 counterexample: on the synthetic report with exactly the two
precinct rows given in the claim, the contest build raises `ValueError`
(the first row's id/name gap of four spaces makes the name a separate
field, and the second row's single-space-separated votes form one
unparsable field), so no file with the claimed second data row is
produced. -/
theorem c1_counterexample :
    gen_election_table (("PAGE 1\n==\n           VOTES PERCENT\nU.S. SENATE\nVote for not more than 1\n01 = Alice A\n02 = Bob B\n03 = overvotes\n04 = undervotes\n0001    Precinct One     100   90   1   0\n0002 0005 Precinct Two   50 40 0 1\n").toList) 1 =
      .error .valueError := rfl

/-- C1 (amended): with the two precinct rows formatted as the code
expects (identifiers and name single-spaced within the first field, vote
fields separated by at least two spaces), `gen_election_table` on the
"U.S. SENATE" contest produces the table whose fourth row — the second
data row — is `["0002", "0005", "Precinct Two", 50, 40, 0, 1]`. -/
theorem c1_amended :
    gen_election_table (("PAGE 1\n==\n           VOTES PERCENT\nU.S. SENATE\nVote for not more than 1\n01 = Alice A\n02 = Bob B\n03 = overvotes\n04 = undervotes\n0001 Precinct One     100   90   1   0\n0002 0005 Precinct Two   50   40   0   1\n").toList) 1 =
      .ok [[Cell.str (("U.S. SENATE").toList)],
           [Cell.str (("Primary precinct ID").toList),
            Cell.str (("Secondary precinct ID").toList),
            Cell.str (("Precinct name").toList),
            Cell.str (("Alice A").toList),
            Cell.str (("Bob B").toList),
            Cell.str (("overvotes").toList),
            Cell.str (("undervotes").toList)],
           [Cell.str (("0001").toList), Cell.pynone,
            Cell.str (("Precinct One").toList),
            Cell.int 100, Cell.int 90, Cell.int 1, Cell.int 0],
           [Cell.str (("0002").toList), Cell.str (("0005").toList),
            Cell.str (("Precinct Two").toList),
            Cell.int 50, Cell.int 40, Cell.int 0, Cell.int 1]] := rfl

/-! ### Claim C2: title scan on a marker-free block -/

/-- C2: evaluating the code at the failing input.  On a one-line block
with no "VOTES" marker, `grab_contest_title` raises `IndexError` (the
loop guard `k < 10000` does not stop the scan from running past the end
of the line list), instead of returning the absent value the spec
promises. -/
theorem c2_code_eval :
    grab_contest_title (("no marker here").toList) = .error .indexError := rfl

/-! ### Claim C3: precinct scan on a block with no precinct rows -/

/-- C3: evaluating the code at the failing input.  On a one-line block
with no precinct-shaped line, `verify_precincts` raises `IndexError`
rather than returning the empty sequence; and in the loop's ceiling
state (the fuel-0 state of `vpGo`, i.e. `k = 10000`) a non-matching
in-range line makes the loop run forever (`Err.nonterm`), because the
source's `else` branch sets `contest_cleaned = []` without ending the
loop. -/
theorem c3_code_eval :
    verify_precincts (("informational block only").toList) = .error .indexError ∧
      vpGo [("informational line").toList] 0 0 = .error .nonterm :=
  ⟨rfl, rfl⟩

/-! ### Claim C7: out-of-range contest numbers -/

/-- C7 counterexample: `gen_election_table` with contest number `-1`
(not a valid 0-based position) does not fail with a precondition error —
the assert `contest_number < len(contests)` passes and Python's negative
indexing selects the last block, producing a full table. -/
theorem c7_counterexample :
    gen_election_table (("Intro\n==\nVOTES\nTITLE X\nVote for not more than 1\n01 = Abc\n0001 Pp  5\n").toList) (-1) =
      .ok [[Cell.str (("TITLE X").toList)],
           [Cell.str (("Primary precinct ID").toList),
            Cell.str (("Secondary precinct ID").toList),
            Cell.str (("Precinct name").toList),
            Cell.str (("Abc").toList)],
           [Cell.str (("0001").toList), Cell.pynone,
            Cell.str (("Pp").toList), Cell.int 5]] := rfl

/-- C7 (amended): only a contest number at or beyond the number of
blocks trips the precondition (`AssertionError`); a negative number
passes the check and indexes from the end, raising `IndexError` only
when it reaches below `-len`. -/
theorem c7_amended (text : List Char) (n : Int) :
    (n ≥ ((read_canvass_from_text text).length : Int) →
      gen_election_table text n = .error .assertError) ∧
    (n < -(((read_canvass_from_text text).length : Int)) →
      gen_election_table text n = .error .indexError) := by
  constructor
  · intro h
    simp only [gen_election_table]
    rw [if_neg (by omega)]
  · intro h
    have hlen : (0 : Int) ≤ ((read_canvass_from_text text).length : Int) :=
      Int.natCast_nonneg _
    simp only [gen_election_table]
    rw [if_pos (by omega)]
    have hnone : pyIndex (read_canvass_from_text text) n = none := by
      unfold pyIndex
      rw [if_neg (by omega), if_neg (by omega)]
    rw [hnone]

/-- C7 witness: the amended theorem applied to a two-block report and
contest number 5. -/
theorem c7_amended_witness :
    gen_election_table (("a==b").toList) 5 = .error .assertError :=
  (c7_amended (("a==b").toList) 5).1 (by decide)

/-! ### Claim C8: two-line titles -/

theorem get?_eq_some_getD {α : Type} (l : List α) (n : Nat) (d : α) (h : n < l.length) :
    l.get? n = some (l.getD n d) := by
  unfold List.getD
  rw [List.get?_eq_get h]
  rfl

theorem getD_of_get? {α : Type} (l : List α) (n : Nat) (d a : α)
    (h : l.get? n = some a) : l.getD n d = a := by
  unfold List.getD
  rw [h]
  rfl

/-- The title scan reaches the first "VOTES" line and, when the line two
below lacks the "vote for not more" phrase, returns the right-trimmed
next line joined to the fully trimmed line two below with one space. -/
theorem titleGo_scan (lines : List (List Char)) (kf : Nat)
    (hlen : kf + 2 < lines.length)
    (hv : hasVotes (lines.getD kf []) = true)
    (hnm : hasVoteForNotMore (lines.getD (kf + 2) []) = false) :
    ∀ fuel k, k ≤ kf → kf < k + fuel →
      (∀ m, k ≤ m → m < kf → hasVotes (lines.getD m []) = false) →
      titleGo lines fuel k =
        .ok (some (rstrip (lines.getD (kf + 1) []) ++
          ' ' :: stripBoth (lines.getD (kf + 2) []))) := by
  intro fuel
  induction fuel with
  | zero =>
    intro k hk hlt _
    omega
  | succ f ih =>
    intro k hk hlt hskip
    by_cases hkk : k = kf
    · subst hkk
      simp only [titleGo]
      rw [if_pos (show k < lines.length by omega)]
      rw [if_pos hv]
      rw [if_pos (show k + 1 < lines.length by omega)]
      rw [if_pos (show k + 2 < lines.length by omega)]
      rw [if_neg (by rw [hnm]; simp)]
    · have hklt : k < kf := by omega
      simp only [titleGo]
      rw [if_pos (show k < lines.length by omega)]
      rw [if_neg (by rw [hskip k (Nat.le_refl _) hklt]; simp)]
      exact ih (k + 1) (by omega) (by omega) (fun m hm1 hm2 => hskip m (by omega) hm2)

/-- C8 counterexample: a block whose title line carries leading
whitespace.  `grab_contest_title` only right-strips the title line, so
the returned two-line title starts with whitespace, contradicting the
claim that the result has no leading or trailing whitespace. -/
theorem c8_counterexample :
    grab_contest_title (("VOTES\n  T\nS").toList) = .ok (some (("  T S").toList)) ∧
      lstrip (("  T S").toList) ≠ ("  T S").toList :=
  ⟨rfl, by decide⟩

/-- C8 (amended): when the first "VOTES"-marker line is at index `kf`,
the block has at least `kf + 3` lines, and the line two below the marker
lacks the "vote for not more" phrase, `grab_contest_title` returns the
right-trimmed title line and the fully trimmed second line joined by
exactly one space (leading whitespace of the title line is preserved). -/
theorem c8_amended (block : List Char) (kf : Nat)
    (hceil : kf < 10000)
    (hlen : kf + 2 < (splitlines block).length)
    (hskip : ∀ m, m < kf → hasVotes ((splitlines block).getD m []) = false)
    (hv : hasVotes ((splitlines block).getD kf []) = true)
    (hnm : hasVoteForNotMore ((splitlines block).getD (kf + 2) []) = false) :
    grab_contest_title block =
      .ok (some (rstrip ((splitlines block).getD (kf + 1) []) ++
        ' ' :: stripBoth ((splitlines block).getD (kf + 2) []))) := by
  unfold grab_contest_title
  exact titleGo_scan _ kf hlen hv hnm 10000 0 (Nat.zero_le _) (by omega)
    (fun m _ hm => hskip m hm)

/-- C8 witness: the amended theorem applied to the block
"VOTES\nTT\nSS" with the marker at index 0. -/
theorem c8_amended_witness :
    grab_contest_title (("VOTES\nTT\nSS").toList) =
      .ok (some (rstrip ((splitlines (("VOTES\nTT\nSS").toList)).getD 1 []) ++
        ' ' :: stripBoth ((splitlines (("VOTES\nTT\nSS").toList)).getD 2 []))) :=
  c8_amended (("VOTES\nTT\nSS").toList) 0 (by decide) (by decide)
    (fun m hm => absurd hm (Nat.not_lt_zero m)) (by decide) (by decide)

/-! ### Claims C5 and C6: precinct rows -/

theorem mapExcept_ok_length {α β : Type} (f : α → Except Err β) :
    ∀ l res, mapExcept f l = .ok res → res.length = l.length := by
  intro l
  induction l with
  | nil =>
    intro res h
    simp only [mapExcept] at h
    cases h
    rfl
  | cons a as ih =>
    intro res h
    simp only [mapExcept] at h
    cases hfa : f a with
    | error e => rw [hfa] at h; cases h
    | ok b =>
      rw [hfa] at h
      cases hrest : mapExcept f as with
      | error e => rw [hrest] at h; cases h
      | ok bs =>
        rw [hrest] at h
        cases h
        simp [ih bs hrest]

theorem mapExcept_ok_get {α β : Type} (f : α → Except Err β) :
    ∀ l res, mapExcept f l = .ok res → ∀ i, i < l.length →
      ∃ a b, l.get? i = some a ∧ res.get? i = some b ∧ f a = .ok b := by
  intro l
  induction l with
  | nil =>
    intro res _ i hi
    simp at hi
  | cons x xs ih =>
    intro res h i hi
    simp only [mapExcept] at h
    cases hfx : f x with
    | error e => rw [hfx] at h; cases h
    | ok b =>
      rw [hfx] at h
      cases hrest : mapExcept f xs with
      | error e => rw [hrest] at h; cases h
      | ok bs =>
        rw [hrest] at h
        cases h
        cases i with
        | zero => exact ⟨x, b, rfl, rfl, hfx⟩
        | succ j =>
          have hj : j < xs.length := by simpa using hi
          obtain ⟨a, b', ha, hb, hab⟩ := ih bs hrest j hj
          exact ⟨a, b', ha, hb, hab⟩

theorem mapExcept_error_valueError {α β : Type} (f : α → Except Err β)
    (hf : ∀ x e, f x = .error e → e = .valueError) :
    ∀ l e, mapExcept f l = .error e → e = .valueError := by
  intro l
  induction l with
  | nil =>
    intro e h
    simp only [mapExcept] at h
    exact Except.noConfusion h
  | cons x xs ih =>
    intro e h
    simp only [mapExcept] at h
    cases hfx : f x with
    | error e' =>
      rw [hfx] at h
      cases h
      exact hf x e hfx
    | ok b =>
      rw [hfx] at h
      cases hrest : mapExcept f xs with
      | error e' =>
        rw [hrest] at h
        cases h
        exact ih e hrest
      | ok bs => rw [hrest] at h; cases h

theorem mapExcept_error_of_exists {α β : Type} (f : α → Except Err β)
    (hf : ∀ x e, f x = .error e → e = .valueError) :
    ∀ l, (∃ a ∈ l, f a = .error .valueError) → mapExcept f l = .error .valueError := by
  intro l
  induction l with
  | nil =>
    rintro ⟨a, ha, _⟩
    simp at ha
  | cons x xs ih =>
    rintro ⟨a, ha, hfa⟩
    rcases List.mem_cons.mp ha with rfl | hmem
    · simp [mapExcept, hfa]
    · cases hfx : f x with
      | error e =>
        have := hf x e hfx
        subst this
        simp [mapExcept, hfx]
      | ok b =>
        simp [mapExcept, hfx, ih ⟨a, hmem, hfa⟩]

theorem voteInt_error (v : List Char) (e : Err) (h : voteInt v = .error e) :
    e = .valueError := by
  unfold voteInt at h
  cases hp : pyInt v with
  | none => rw [hp] at h; cases h; rfl
  | some n => rw [hp] at h; cases h

theorem voteInt_of_none (v : List Char) (h : pyInt v = none) :
    voteInt v = .error .valueError := by
  unfold voteInt
  rw [h]

/-- A precinct line with an unparsable vote field makes `parseRow`
raise `ValueError`. -/
theorem parseRow_bad (line : List Char)
    (h : ∃ f ∈ (splitWs2 line).drop 1, pyInt f = none) :
    parseRow line = .error .valueError := by
  obtain ⟨v, hv, hnone⟩ := h
  have hmap : mapExcept voteInt ((splitWs2 line).drop 1) = .error .valueError :=
    mapExcept_error_of_exists voteInt voteInt_error _ ⟨v, hv, voteInt_of_none v hnone⟩
  simp only [parseRow]
  rw [hmap]

/-- `parseRow` either succeeds or raises `ValueError`; it never
substitutes a default for a malformed field. -/
theorem parseRow_err_or (line : List Char) :
    parseRow line = .error .valueError ∨ ∃ r, parseRow line = .ok r := by
  simp only [parseRow]
  cases hm : mapExcept voteInt ((splitWs2 line).drop 1) with
  | error e =>
    have := mapExcept_error_valueError voteInt voteInt_error _ e hm
    subst this
    left
    rfl
  | ok votes =>
    right
    exact ⟨_, rfl⟩

theorem splitWs2_ne_nil (line : List Char) : splitWs2 line ≠ [] :=
  splitRun2Go_ne_nil isPyWs line.length line

/-- A successfully parsed row has exactly two more cells than the line
has whitespace-run-separated fields: the three leading identifier cells
plus one vote per field after the first. -/
theorem parseRow_ok_length (line : List Char) (r : Row) (h : parseRow line = .ok r) :
    r.length = (splitWs2 line).length + 2 := by
  simp only [parseRow] at h
  cases hm : mapExcept voteInt ((splitWs2 line).drop 1) with
  | error e => rw [hm] at h; cases h
  | ok votes =>
    rw [hm] at h
    cases h
    have hv : votes.length = ((splitWs2 line).drop 1).length :=
      mapExcept_ok_length voteInt _ _ hm
    have hne : (splitWs2 line).length ≠ 0 :=
      fun h0 => splitWs2_ne_nil line (List.length_eq_zero.mp h0)
    simp [hv]
    omega

/-- Processing the precinct region errors with `ValueError` whenever
some line of the region has an unparsable vote field. -/
theorem mapExcept_parseRow_err :
    ∀ region : List (List Char),
      (∃ line ∈ region, ∃ f ∈ (splitWs2 line).drop 1, pyInt f = none) →
      mapExcept parseRow region = .error .valueError := by
  intro region
  induction region with
  | nil =>
    rintro ⟨l, hl, _⟩
    simp at hl
  | cons x xs ih =>
    rintro ⟨l, hl, hf⟩
    rcases List.mem_cons.mp hl with rfl | hmem
    · have hx : parseRow l = .error .valueError := parseRow_bad _ hf
      simp [mapExcept, hx]
    · rcases parseRow_err_or x with hx | ⟨r, hx⟩
      · simp [mapExcept, hx]
      · simp [mapExcept, hx, ih ⟨l, hmem, hf⟩]

/-- C6: for every contest block whose precinct region contains a line
with a vote field (a field after the first) that fails integer parsing,
`grab_precincts` raises `ValueError`; no record with a substituted value
is produced. -/
theorem c6_no_default_on_bad_vote (block : List Char) (region : List (List Char))
    (h1 : verify_precincts block = .ok region)
    (h2 : ∃ line ∈ region, ∃ f ∈ (splitWs2 line).drop 1, pyInt f = none) :
    grab_precincts block = .error .valueError := by
  unfold grab_precincts
  rw [h1]
  exact mapExcept_parseRow_err region h2

/-- C6 witness: the theorem applied to a one-line block whose second
vote field is the non-numeric "xx". -/
theorem c6_witness :
    grab_precincts (("0001 Pp  12  xx").toList) = .error .valueError :=
  c6_no_default_on_bad_vote (("0001 Pp  12  xx").toList) [("0001 Pp  12  xx").toList]
    rfl ⟨("0001 Pp  12  xx").toList, by decide, ("xx").toList, by decide, by decide⟩

/-- C5 counterexample: a contest block whose roster has two candidates
but whose single precinct row has three vote fields.  Both extractions
succeed, and the record's vote sequence length (3) differs from the
roster size (2), refuting the claimed invariant. -/
theorem c5_counterexample :
    grab_candidates (("01 = Alice A\n02 = Bob B\n0001 P  1  2  3").toList) =
      .ok [(1, ("Alice A").toList), (2, ("Bob B").toList)] ∧
    grab_precincts (("01 = Alice A\n02 = Bob B\n0001 P  1  2  3").toList) =
      .ok [[Cell.str (("0001").toList), Cell.pynone, Cell.str (("P").toList),
            Cell.int 1, Cell.int 2, Cell.int 3]] ∧
    (([Cell.str (("0001").toList), Cell.pynone, Cell.str (("P").toList),
       Cell.int 1, Cell.int 2, Cell.int 3] : Row).drop 3).length ≠
      ([(1, ("Alice A").toList), (2, ("Bob B").toList)] : CandMap).length :=
  ⟨rfl, rfl, by decide⟩

/-- C5 (amended): each record produced by `grab_precincts` has as many
cells as its own source line has whitespace-run-separated fields, plus
two (three identifier cells, then one vote per field after the first);
the vote-count length is therefore determined by the line, not by the
candidate roster. -/
theorem c5_amended (block : List Char) (region : List (List Char)) (rows : List Row)
    (h1 : verify_precincts block = .ok region)
    (h2 : grab_precincts block = .ok rows) (i : Nat) (hi : i < rows.length) :
    (rows.getD i []).length = (splitWs2 (region.getD i [])).length + 2 := by
  unfold grab_precincts at h2
  rw [h1] at h2
  have hlen : rows.length = region.length := mapExcept_ok_length parseRow region rows h2
  obtain ⟨a, b, ha, hb, hab⟩ :=
    mapExcept_ok_get parseRow region rows h2 i (by omega)
  have h1' : region.getD i [] = a := getD_of_get? region i [] a ha
  have h2' : rows.getD i [] = b := getD_of_get? rows i [] b hb
  rw [h1', h2']
  exact parseRow_ok_length a b hab

/-- C5 witness: the amended theorem applied to a one-line block with
two identifiers and three vote fields. -/
theorem c5_amended_witness :
    (([[Cell.str (("0002").toList), Cell.str (("0003").toList),
        Cell.str (("Qq").toList), Cell.int 7, Cell.int 8, Cell.int 9]] : List Row).getD 0 []).length =
      (splitWs2 (([("0002 0003 Qq  7  8  9").toList] : List (List Char)).getD 0 [])).length + 2 :=
  c5_amended (("0002 0003 Qq  7  8  9").toList) [("0002 0003 Qq  7  8  9").toList]
    [[Cell.str (("0002").toList), Cell.str (("0003").toList),
      Cell.str (("Qq").toList), Cell.int 7, Cell.int 8, Cell.int 9]]
    rfl rfl 0 (by decide)

/-! ### Claim C10: candidate-index gaps -/

/-- Largest key of the candidate mapping (0 when empty). -/
def maxKey (m : CandMap) : Int := (m.map Prod.fst).foldr max 0

theorem mem_keys_upsert (m : CandMap) (k : Int) (v : List Char) (x : Int) :
    x ∈ (upsert m k v).map Prod.fst ↔ x ∈ m.map Prod.fst ∨ x = k := by
  induction m with
  | nil => simp [upsert]
  | cons kv rest ih =>
    by_cases hk : kv.1 = k
    · simp only [upsert, if_pos hk, List.map_cons, List.mem_cons, ih]
      rw [hk]
      tauto
    · simp only [upsert, if_neg hk, List.map_cons, List.mem_cons, ih]
      tauto

theorem upsert_nodup (m : CandMap) (k : Int) (v : List Char)
    (h : (m.map Prod.fst).Nodup) : ((upsert m k v).map Prod.fst).Nodup := by
  induction m with
  | nil => simp [upsert]
  | cons kv rest ih =>
    simp only [List.map_cons, List.nodup_cons] at h
    by_cases hk : kv.1 = k
    · simp only [upsert, if_pos hk, List.map_cons, List.nodup_cons]
      exact ⟨hk ▸ h.1, h.2⟩
    · simp only [upsert, if_neg hk, List.map_cons, List.nodup_cons]
      refine ⟨?_, ih h.2⟩
      intro hmem
      rcases (mem_keys_upsert rest k v kv.1).mp hmem with hmem' | heq
      · exact h.1 hmem'
      · exact hk heq

theorem candLoop_nodup :
    ∀ (cs : List (List Char)) (m : CandMap), (m.map Prod.fst).Nodup →
      ∀ m', candLoop cs m = .ok m' → (m'.map Prod.fst).Nodup := by
  intro cs
  induction cs with
  | nil =>
    intro m h m' hm
    simp only [candLoop] at hm
    cases hm
    exact h
  | cons c rest ih =>
    intro m h m' hm
    simp only [candLoop] at hm
    cases hidx : pyInt ((splitSepEq (rstrip c)).headD []) with
    | none => rw [hidx] at hm; cases hm
    | some idx =>
      rw [hidx] at hm
      cases hname : (splitSepEq (rstrip c)).get? 1 with
      | none => rw [hname] at hm; cases hm
      | some name =>
        rw [hname] at hm
        exact ih (upsert m idx name) (upsert_nodup m idx name h) m' hm

/-- The keys of a candidate mapping produced by `grab_candidates` are
distinct (they form a Python dict). -/
theorem grab_candidates_nodup (block : List Char) (m : CandMap)
    (h : grab_candidates block = .ok m) : (m.map Prod.fst).Nodup :=
  candLoop_nodup (findCands block) [] (by simp) m h

theorem lookupKey_eq_none_iff (m : CandMap) (k : Int) :
    lookupKey m k = none ↔ k ∉ m.map Prod.fst := by
  induction m with
  | nil => simp [lookupKey]
  | cons kv rest ih =>
    simp only [lookupKey, List.map_cons, List.mem_cons]
    by_cases hk : kv.1 = k
    · simp [hk]
    · simp only [if_neg hk, ih]
      constructor
      · intro h hmem
        rcases hmem with heq | hmem'
        · exact hk heq.symm
        · exact h hmem'
      · intro h hmem
        exact h (Or.inr hmem)

theorem mapExcept_error_eq_of {α β : Type} (f : α → Except Err β) (e0 : Err)
    (hf : ∀ x e, f x = .error e → e = e0) :
    ∀ l e, mapExcept f l = .error e → e = e0 := by
  intro l
  induction l with
  | nil =>
    intro e h
    simp only [mapExcept] at h
    exact Except.noConfusion h
  | cons x xs ih =>
    intro e h
    simp only [mapExcept] at h
    cases hfx : f x with
    | error e2 =>
      rw [hfx] at h
      cases h
      exact hf x e hfx
    | ok b =>
      rw [hfx] at h
      cases hrest : mapExcept f xs with
      | error e2 =>
        rw [hrest] at h
        cases h
        exact ih e hrest
      | ok bs => rw [hrest] at h; cases h

theorem mapExcept_ok_forall {α β : Type} (f : α → Except Err β) :
    ∀ l res, mapExcept f l = .ok res → ∀ a ∈ l, ∃ b, f a = .ok b := by
  intro l
  induction l with
  | nil =>
    intro res _ a ha
    simp at ha
  | cons x xs ih =>
    intro res h a ha
    simp only [mapExcept] at h
    cases hfx : f x with
    | error e => rw [hfx] at h; cases h
    | ok b =>
      rw [hfx] at h
      cases hrest : mapExcept f xs with
      | error e => rw [hrest] at h; cases h
      | ok bs =>
        rcases List.mem_cons.mp ha with rfl | hmem
        · exact ⟨b, hfx⟩
        · exact ih bs hrest a hmem

theorem headerLookup_error (candidates : CandMap) (k : Nat) (e : Err)
    (h : headerLookup candidates k = .error e) : e = .keyError := by
  unfold headerLookup at h
  cases hl : lookupKey candidates (k : Int) with
  | none => rw [hl] at h; cases h; rfl
  | some n => rw [hl] at h; cases h

theorem foldr_max_le (l : List Int) (c : Int) (h : ∀ x ∈ l, x ≤ c) (hc : 0 ≤ c) :
    l.foldr max 0 ≤ c := by
  induction l with
  | nil => simpa using hc
  | cons x xs ih =>
    simp only [List.foldr_cons]
    exact max_le (h x (List.mem_cons_self x xs)) (ih fun y hy => h y (List.mem_cons_of_mem x hy))

/-- C10: if the roster produced by `grab_candidates` has a gap — some
index between 1 and the maximum roster index has no entry — then the
header construction of `gen_election_table` fails with `KeyError`. -/
theorem c10_gap_key_error (block : List Char) (m : CandMap)
    (hc : grab_candidates block = .ok m)
    (hgap : ∃ j : Int, 1 ≤ j ∧ j ≤ maxKey m ∧ lookupKey m j = none) :
    buildHeader m = .error .keyError := by
  obtain ⟨j, hj1, hj2, hjnone⟩ := hgap
  cases hm : mapExcept (headerLookup m) (List.range' 1 m.length) with
  | error e =>
    have he := mapExcept_error_eq_of (headerLookup m) .keyError
      (headerLookup_error m) _ e hm
    subst he
    simp only [buildHeader]
    rw [hm]
  | ok names =>
    exfalso
    have hall := mapExcept_ok_forall (headerLookup m) _ names hm
    have hlk : ∀ k ∈ List.range' 1 m.length, ((k : Int)) ∈ m.map Prod.fst := by
      intro k hk
      obtain ⟨b, hb⟩ := hall k hk
      by_contra hmem
      have hnone : lookupKey m (k : Int) = none :=
        (lookupKey_eq_none_iff m _).mpr hmem
      unfold headerLookup at hb
      rw [hnone] at hb
      cases hb
    have hnodup : (m.map Prod.fst).Nodup := grab_candidates_nodup block m hc
    have hRnodup : ((List.range' 1 m.length).map (fun k : Nat => (k : Int))).Nodup := by
      refine List.Nodup.map (fun a b hab => by exact_mod_cast hab) ?_
      exact (List.pairwise_lt_range' 1 m.length).imp (fun hab => Nat.ne_of_lt hab)
    have hsub : ∀ x ∈ (List.range' 1 m.length).map (fun k : Nat => (k : Int)),
        x ∈ m.map Prod.fst := by
      intro x hx
      obtain ⟨k, hk, rfl⟩ := List.mem_map.mp hx
      exact hlk k hk
    have hAcard : ((List.range' 1 m.length).map (fun k : Nat => (k : Int))).toFinset.card
        = m.length := by
      rw [List.toFinset_card_of_nodup hRnodup]
      simp
    have hKcard : (m.map Prod.fst).toFinset.card = m.length := by
      rw [List.toFinset_card_of_nodup hnodup]
      simp
    have hfinsub : ((List.range' 1 m.length).map (fun k : Nat => (k : Int))).toFinset ⊆
        (m.map Prod.fst).toFinset := by
      intro x hx
      rw [List.mem_toFinset] at hx ⊢
      exact hsub x hx
    have heq : ((List.range' 1 m.length).map (fun k : Nat => (k : Int))).toFinset =
        (m.map Prod.fst).toFinset :=
      Finset.eq_of_subset_of_card_le hfinsub (by rw [hAcard, hKcard])
    have hble : ∀ x ∈ m.map Prod.fst, x ≤ (m.length : Int) := by
      intro x hx
      have hx2 : x ∈ ((List.range' 1 m.length).map (fun k : Nat => (k : Int))).toFinset := by
        rw [heq]
        exact List.mem_toFinset.mpr hx
      rw [List.mem_toFinset] at hx2
      obtain ⟨k, hk, rfl⟩ := List.mem_map.mp hx2
      have hk2 := (List.mem_range'_1.mp hk).2
      omega
    have hmax : maxKey m ≤ (m.length : Int) :=
      foldr_max_le _ _ hble (Int.natCast_nonneg _)
    have hjK : j ∈ m.map Prod.fst := by
      have hj : j ≤ (m.length : Int) := le_trans hj2 hmax
      have hmem2 : ((j.toNat : Int)) ∈ (List.range' 1 m.length).map (fun k : Nat => (k : Int)) := by
        refine List.mem_map.mpr ⟨j.toNat, ?_, rfl⟩
        refine List.mem_range'_1.mpr ⟨?_, ?_⟩ <;> omega
      have hmem3 := hsub _ hmem2
      rwa [Int.toNat_of_nonneg (by omega : (0 : Int) ≤ j)] at hmem3
    exact (lookupKey_eq_none_iff m j).mp hjnone hjK

/-- C10 witness: the theorem applied to a block whose roster has
candidates at indices 1 and 3 but none at index 2. -/
theorem c10_witness :
    buildHeader [(1, ("Alice").toList), (3, ("Bob").toList)] = .error .keyError :=
  c10_gap_key_error (("01 = Alice\n03 = Bob\n").toList)
    [(1, ("Alice").toList), (3, ("Bob").toList)] rfl
    ⟨2, by decide, by decide, by decide⟩

/-! ### Claim C9: duplicate contest titles in display_contests -/

theorem natDigitsGo_ne_nil (f n : Nat) : natDigitsGo (f + 1) n ≠ [] := by
  simp only [natDigitsGo]
  split
  · simp
  · simp

theorem natDigits_ne_nil (n : Nat) : natDigits n ≠ [] :=
  natDigitsGo_ne_nil n n

theorem append_ne_self (T e : List Char) (he : e ≠ []) : T ++ e ≠ T := by
  intro h
  have hl := congrArg List.length h
  simp at hl
  exact he hl

theorem dictLookup_dictSet_self (d : List (TitleKey × Nat)) (k : TitleKey) (v : Nat) :
    dictLookup (dictSet d k v) k = some v := by
  induction d with
  | nil => simp [dictSet, dictLookup]
  | cons kv rest ih =>
    by_cases hk : kv.1 = k
    · simp [dictSet, dictLookup, hk]
    · simp [dictSet, dictLookup, hk, ih]

theorem dictLookup_dictSet_ne (d : List (TitleKey × Nat)) (k k' : TitleKey) (v : Nat)
    (h : k' ≠ k) : dictLookup (dictSet d k v) k' = dictLookup d k' := by
  induction d with
  | nil =>
    simp [dictSet, dictLookup]
    intro heq
    exact absurd heq.symm h
  | cons kv rest ih =>
    by_cases hk : kv.1 = k
    · subst hk
      simp only [dictSet, if_pos rfl]
      simp only [dictLookup]
      rw [if_neg (fun heq => h heq.symm), if_neg (fun heq => h heq.symm)]
    · simp only [dictSet, if_neg hk]
      simp only [dictLookup]
      by_cases hk' : kv.1 = k'
      · rw [if_pos hk', if_pos hk']
      · rw [if_neg hk', if_neg hk']
        exact ih

theorem dictHasKey_false_of_none (d : List (TitleKey × Nat)) (k : TitleKey)
    (h : dictLookup d k = none) : dictHasKey d k = false := by
  induction d with
  | nil => simp [dictHasKey]
  | cons kv rest ih =>
    simp only [dictLookup] at h
    by_cases hk : kv.1 = k
    · rw [if_pos hk] at h
      cases h
    · rw [if_neg hk] at h
      simp only [dictHasKey, if_neg hk]
      exact ih h

theorem dictHasKey_true_of_some (d : List (TitleKey × Nat)) (k : TitleKey) (v : Nat)
    (h : dictLookup d k = some v) : dictHasKey d k = true := by
  induction d with
  | nil => simp [dictLookup] at h
  | cons kv rest ih =>
    simp only [dictLookup] at h
    by_cases hk : kv.1 = k
    · simp [dictHasKey, hk]
    · rw [if_neg hk] at h
      simp only [dictHasKey, if_neg hk]
      exact ih h

/-- The title of contest `k` of a segmented report, when extraction
succeeds with a present (non-`None`) title. -/
def titleSome (blocks : List (List Char)) (k : Nat) : Option (List Char) :=
  match grab_contest_title (blocks.getD k []) with
  | .ok (some t) => some t
  | _ => none

theorem titleSome_inv (blocks : List (List Char)) (k : Nat) (t : List Char)
    (h : titleSome blocks k = some t) :
    grab_contest_title (blocks.getD k []) = .ok (some t) := by
  unfold titleSome at h
  cases hg : grab_contest_title (blocks.getD k []) with
  | error e => rw [hg] at h; cases h
  | ok o =>
    cases o with
    | none => rw [hg] at h; cases h
    | some t' =>
      rw [hg] at h
      cases h
      rfl

theorem dcGo_cons (blocks : List (List Char)) (k : Nat) (ks : List Nat)
    (d : List (TitleKey × Nat)) (t : List Char)
    (hg : grab_contest_title (blocks.getD k []) = .ok (some t)) :
    dcGo blocks (k :: ks) d =
      (if dictHasKey d (some t) then dcGo blocks ks (dictSet d (some (t ++ natDigits k)) k)
       else dcGo blocks ks (dictSet d (some t) k)) := by
  simp only [dcGo, hg]

/-- Main invariant argument for `display_contests` with duplicated
titles: processing a sorted list of contest indices that all yield
present titles, where `i` is the first index whose title is `T`, `j > i`
also yields `T`, no re-keyed entry collides with the key `T`, and no
re-keyed entry other than `j`'s collides with the key `T ++ str j`, ends
with the dict mapping `T` to `i` and `T ++ str j` to `j`. -/
theorem dcGo_spec (blocks : List (List Char)) (i j : Nat) (T : List Char)
    (hij : i < j)
    (hTi : titleSome blocks i = some T)
    (hTj : titleSome blocks j = some T) :
    ∀ ks : List Nat, ks.Pairwise (· < ·) →
      (∀ k ∈ ks, titleSome blocks k ≠ none) →
      (∀ k ∈ ks, k < i → titleSome blocks k ≠ some T) →
      (∀ k ∈ ks, ∀ t, titleSome blocks k = some t → t ++ natDigits k ≠ T) →
      (∀ k ∈ ks, k ≠ j → ∀ t, titleSome blocks k = some t →
        t ++ natDigits k ≠ T ++ natDigits j) →
      ∀ d : List (TitleKey × Nat),
        ((i ∈ ks ∧ j ∈ ks ∧ dictLookup d (some T) = none) ∨
         (i ∉ ks ∧ j ∈ ks ∧ dictLookup d (some T) = some i) ∨
         (i ∉ ks ∧ j ∉ ks ∧ dictLookup d (some T) = some i ∧
           dictLookup d (some (T ++ natDigits j)) = some j)) →
        ∃ d2, dcGo blocks ks d = .ok d2 ∧ dictLookup d2 (some T) = some i ∧
          dictLookup d2 (some (T ++ natDigits j)) = some j := by
  intro ks
  induction ks with
  | nil =>
    intro _ _ _ _ _ d hinv
    rcases hinv with ⟨hi, _, _⟩ | ⟨_, hj, _⟩ | ⟨_, _, hl1, hl2⟩
    · simp at hi
    · simp at hj
    · exact ⟨d, rfl, hl1, hl2⟩
  | cons k ks ih =>
    intro hpw hok hfirst h1 h2 d hinv
    have hklt : ∀ x ∈ ks, k < x := fun x hx => (List.pairwise_cons.mp hpw).1 x hx
    have hpw' := (List.pairwise_cons.mp hpw).2
    have hok' : ∀ x ∈ ks, titleSome blocks x ≠ none :=
      fun x hx => hok x (List.mem_cons_of_mem k hx)
    have hfirst' : ∀ x ∈ ks, x < i → titleSome blocks x ≠ some T :=
      fun x hx => hfirst x (List.mem_cons_of_mem k hx)
    have h1' : ∀ x ∈ ks, ∀ t, titleSome blocks x = some t → t ++ natDigits x ≠ T :=
      fun x hx => h1 x (List.mem_cons_of_mem k hx)
    have h2' : ∀ x ∈ ks, x ≠ j → ∀ t, titleSome blocks x = some t →
        t ++ natDigits x ≠ T ++ natDigits j :=
      fun x hx => h2 x (List.mem_cons_of_mem k hx)
    obtain ⟨t, ht⟩ : ∃ t, titleSome blocks k = some t := by
      cases h : titleSome blocks k with
      | none => exact absurd h (hok k (List.mem_cons_self k ks))
      | some t => exact ⟨t, rfl⟩
    have hg := titleSome_inv blocks k t ht
    rw [dcGo_cons blocks k ks d t hg]
    have hTndj_ne : T ++ natDigits j ≠ T := append_ne_self T (natDigits j) (natDigits_ne_nil j)
    rcases hinv with ⟨hiks, hjks, hlook⟩ | ⟨hiks, hjks, hlook⟩ | ⟨hiks, hjks, hlook, hlook2⟩
    · -- before i: dict has no entry at key T yet
      by_cases hki : k = i
      · subst hki
        have htT : t = T := Option.some.inj (ht.symm.trans hTi)
        subst htT
        have hhk : dictHasKey d (some t) = false := dictHasKey_false_of_none d _ hlook
        rw [if_neg (by rw [hhk]; simp)]
        refine ih hpw' hok' hfirst' h1' h2' (dictSet d (some t) k) ?_
        right; left
        refine ⟨?_, ?_, ?_⟩
        · intro hmem
          exact absurd (hklt k hmem) (lt_irrefl k)
        · rcases List.mem_cons.mp hjks with heq | hmem
          · exact absurd (heq ▸ hij) (lt_irrefl k)
          · exact hmem
        · exact dictLookup_dictSet_self d _ k
      · have hiks' : i ∈ ks := by
          rcases List.mem_cons.mp hiks with heq | hmem
          · exact absurd heq.symm hki
          · exact hmem
        have hki2 : k < i := hklt i hiks'
        have hjks' : j ∈ ks := by
          rcases List.mem_cons.mp hjks with heq | hmem
          · exact absurd (heq ▸ hij) (by omega)
          · exact hmem
        have htT : t ≠ T :=
          fun h => (hfirst k (List.mem_cons_self k ks) hki2) (h ▸ ht)
        by_cases hhk : dictHasKey d (some t) = true
        · rw [if_pos hhk]
          refine ih hpw' hok' hfirst' h1' h2' _ ?_
          left
          refine ⟨hiks', hjks', ?_⟩
          rw [dictLookup_dictSet_ne d _ _ k
            (fun hc => (h1 k (List.mem_cons_self k ks) t ht) (Option.some.inj hc).symm)]
          exact hlook
        · have hhk2 : dictHasKey d (some t) = false := by
            revert hhk
            cases dictHasKey d (some t) <;> simp
          rw [if_neg (by rw [hhk2]; simp)]
          refine ih hpw' hok' hfirst' h1' h2' _ ?_
          left
          refine ⟨hiks', hjks', ?_⟩
          rw [dictLookup_dictSet_ne d _ _ k
            (fun hc => htT (Option.some.inj hc).symm)]
          exact hlook
    · -- between i and j: dict maps T to i
      have hik : k ≠ i := fun h => hiks (h ▸ List.mem_cons_self k ks)
      have hiks' : i ∉ ks := fun h => hiks (List.mem_cons_of_mem k h)
      by_cases hkj : k = j
      · subst hkj
        have htT : t = T := Option.some.inj (ht.symm.trans hTj)
        subst htT
        have hhk : dictHasKey d (some t) = true := dictHasKey_true_of_some d _ i hlook
        rw [if_pos hhk]
        refine ih hpw' hok' hfirst' h1' h2' _ ?_
        right; right
        refine ⟨hiks', ?_, ?_, ?_⟩
        · intro hmem
          exact absurd (hklt k hmem) (lt_irrefl k)
        · rw [dictLookup_dictSet_ne d _ _ k
            (fun hc => hTndj_ne (Option.some.inj hc).symm)]
          exact hlook
        · exact dictLookup_dictSet_self d _ k
      · have hjks' : j ∈ ks := by
          rcases List.mem_cons.mp hjks with heq | hmem
          · exact absurd heq.symm hkj
          · exact hmem
        by_cases hhk : dictHasKey d (some t) = true
        · rw [if_pos hhk]
          refine ih hpw' hok' hfirst' h1' h2' _ ?_
          right; left
          refine ⟨hiks', hjks', ?_⟩
          rw [dictLookup_dictSet_ne d _ _ k
            (fun hc => (h1 k (List.mem_cons_self k ks) t ht) (Option.some.inj hc).symm)]
          exact hlook
        · have htT : t ≠ T := by
            intro h
            subst h
            exact hhk (dictHasKey_true_of_some d _ i hlook)
          have hhk2 : dictHasKey d (some t) = false := by
            revert hhk
            cases dictHasKey d (some t) <;> simp
          rw [if_neg (by rw [hhk2]; simp)]
          refine ih hpw' hok' hfirst' h1' h2' _ ?_
          right; left
          refine ⟨hiks', hjks', ?_⟩
          rw [dictLookup_dictSet_ne d _ _ k
            (fun hc => htT (Option.some.inj hc).symm)]
          exact hlook
    · -- after j: both keys are set
      have hik : k ≠ i := fun h => hiks (h ▸ List.mem_cons_self k ks)
      have hkj : k ≠ j := fun h => hjks (h ▸ List.mem_cons_self k ks)
      have hiks' : i ∉ ks := fun h => hiks (List.mem_cons_of_mem k h)
      have hjks' : j ∉ ks := fun h => hjks (List.mem_cons_of_mem k h)
      by_cases hhk : dictHasKey d (some t) = true
      · rw [if_pos hhk]
        refine ih hpw' hok' hfirst' h1' h2' _ ?_
        right; right
        refine ⟨hiks', hjks', ?_, ?_⟩
        · rw [dictLookup_dictSet_ne d _ _ k
            (fun hc => (h1 k (List.mem_cons_self k ks) t ht) (Option.some.inj hc).symm)]
          exact hlook
        · rw [dictLookup_dictSet_ne d _ _ k
            (fun hc => (h2 k (List.mem_cons_self k ks) hkj t ht) (Option.some.inj hc).symm)]
          exact hlook2
      · have htT : t ≠ T := by
          intro h
          subst h
          exact hhk (dictHasKey_true_of_some d _ i hlook)
        have htTj : t ≠ T ++ natDigits j := by
          intro h
          subst h
          exact hhk (dictHasKey_true_of_some d _ j hlook2)
        have hhk2 : dictHasKey d (some t) = false := by
          revert hhk
          cases dictHasKey d (some t) <;> simp
        rw [if_neg (by rw [hhk2]; simp)]
        refine ih hpw' hok' hfirst' h1' h2' _ ?_
        right; right
        refine ⟨hiks', hjks', ?_, ?_⟩
        · rw [dictLookup_dictSet_ne d _ _ k
            (fun hc => htT (Option.some.inj hc).symm)]
          exact hlook
        · rw [dictLookup_dictSet_ne d _ _ k
            (fun hc => htTj (Option.some.inj hc).symm)]
          exact hlook2

/-- C9 counterexample: a report with three identically-titled contests
at positions 1 < 2 < 3.  Instantiating the claim at i = 2, j = 3 (both
yield the title "T") fails: the final mapping stores the unmodified key
"T" at position 1, not at 2 — only the first occurrence wins the
unmodified key. -/
theorem c9_counterexample :
    titleSome (read_canvass_from_text (("X\n==\nVOTES\nT\nVote for not more than 1\n==\nVOTES\nT\nVote for not more than 1\n==\nVOTES\nT\nVote for not more than 1\n").toList)) 2 = some (("T").toList) ∧
    titleSome (read_canvass_from_text (("X\n==\nVOTES\nT\nVote for not more than 1\n==\nVOTES\nT\nVote for not more than 1\n==\nVOTES\nT\nVote for not more than 1\n").toList)) 3 = some (("T").toList) ∧
    display_contests (("X\n==\nVOTES\nT\nVote for not more than 1\n==\nVOTES\nT\nVote for not more than 1\n==\nVOTES\nT\nVote for not more than 1\n").toList) =
      .ok [(some (("T").toList), 1), (some (("T2").toList), 2), (some (("T3").toList), 3)] ∧
    dictLookup [(some (("T").toList), 1), (some (("T2").toList), 2), (some (("T3").toList), 3)]
      (some (("T").toList)) ≠ some 2 :=
  ⟨rfl, rfl, rfl, by decide⟩

/-- C9 (amended): if every contest from position 1 on yields a present
title, `i` is the FIRST position whose title is `T`, `j > i` also yields
`T`, no contest's re-keyed entry (`title + str(k)`) collides with the
key `T`, and no contest's re-keyed entry other than `j`'s collides with
the key `T ++ str j`, then `display_contests` maps the unmodified key
`T` to `i` and the key `T ++ str j` to `j`; in particular contest `j`
never overwrites the entry stored at `T`. -/
theorem c9_amended (text : List Char) (i j : Nat) (T : List Char)
    (hij : i < j)
    (hik : i ∈ List.range' 1 ((read_canvass_from_text text).length - 1))
    (hjk : j ∈ List.range' 1 ((read_canvass_from_text text).length - 1))
    (hTi : titleSome (read_canvass_from_text text) i = some T)
    (hTj : titleSome (read_canvass_from_text text) j = some T)
    (hok : ∀ k ∈ List.range' 1 ((read_canvass_from_text text).length - 1),
      titleSome (read_canvass_from_text text) k ≠ none)
    (hfirst : ∀ k ∈ List.range' 1 ((read_canvass_from_text text).length - 1),
      k < i → titleSome (read_canvass_from_text text) k ≠ some T)
    (h1 : ∀ k ∈ List.range' 1 ((read_canvass_from_text text).length - 1),
      ∀ t, titleSome (read_canvass_from_text text) k = some t → t ++ natDigits k ≠ T)
    (h2 : ∀ k ∈ List.range' 1 ((read_canvass_from_text text).length - 1),
      k ≠ j → ∀ t, titleSome (read_canvass_from_text text) k = some t →
        t ++ natDigits k ≠ T ++ natDigits j) :
    ∃ d, display_contests text = .ok d ∧
      dictLookup d (some T) = some i ∧
      dictLookup d (some (T ++ natDigits j)) = some j := by
  have hmain := dcGo_spec (read_canvass_from_text text) i j T hij hTi hTj
    (List.range' 1 ((read_canvass_from_text text).length - 1))
    (List.pairwise_lt_range' 1 _) hok hfirst h1 h2 []
    (Or.inl ⟨hik, hjk, rfl⟩)
  simpa [display_contests] using hmain

/-- C9 witness: the amended theorem applied to a report with two
contests both titled "AA" at positions 1 and 2. -/
theorem c9_amended_witness :
    ∃ d, display_contests (("X\n==\nVOTES\nAA\nVote for not more than 1\n==\nVOTES\nAA\nVote for not more than 1\n").toList) = .ok d ∧
      dictLookup d (some (("AA").toList)) = some 1 ∧
      dictLookup d (some (("AA").toList ++ natDigits 2)) = some 2 := by
  refine c9_amended (("X\n==\nVOTES\nAA\nVote for not more than 1\n==\nVOTES\nAA\nVote for not more than 1\n").toList)
    1 2 (("AA").toList) (by decide) (by decide) (by decide) rfl rfl (by decide) (by decide)
    ?_ ?_
  · intro k hk t ht
    have hks : List.range' 1 ((read_canvass_from_text (("X\n==\nVOTES\nAA\nVote for not more than 1\n==\nVOTES\nAA\nVote for not more than 1\n").toList)).length - 1) = [1, 2] := rfl
    rw [hks] at hk
    simp only [List.mem_cons, List.not_mem_nil, or_false] at hk
    rcases hk with rfl | rfl
    · have hv : titleSome (read_canvass_from_text (("X\n==\nVOTES\nAA\nVote for not more than 1\n==\nVOTES\nAA\nVote for not more than 1\n").toList)) 1 = some (("AA").toList) := rfl
      rw [hv] at ht
      injection ht with ht2
      subst ht2
      decide
    · have hv : titleSome (read_canvass_from_text (("X\n==\nVOTES\nAA\nVote for not more than 1\n==\nVOTES\nAA\nVote for not more than 1\n").toList)) 2 = some (("AA").toList) := rfl
      rw [hv] at ht
      injection ht with ht2
      subst ht2
      decide
  · intro k hk hkj t ht
    have hks : List.range' 1 ((read_canvass_from_text (("X\n==\nVOTES\nAA\nVote for not more than 1\n==\nVOTES\nAA\nVote for not more than 1\n").toList)).length - 1) = [1, 2] := rfl
    rw [hks] at hk
    simp only [List.mem_cons, List.not_mem_nil, or_false] at hk
    rcases hk with rfl | rfl
    · have hv : titleSome (read_canvass_from_text (("X\n==\nVOTES\nAA\nVote for not more than 1\n==\nVOTES\nAA\nVote for not more than 1\n").toList)) 1 = some (("AA").toList) := rfl
      rw [hv] at ht
      injection ht with ht2
      subst ht2
      decide
    · exact absurd rfl hkj
